import Mathlib

/-!
Verification development for the stocker repository (stocker/stocker.py).

The embedding models the two classes the claims are about:

* class Stock: ticker normalization, the downloaded OHLC frame, the
  derived Close-Open and High-Low columns recomputed on every read of
  the history property, the per-stock statistics dictionaries and the
  period return percentage, the ticker setter, and requery_data.
* class Market: mkt_stats (the per-column loop over member stocks) and
  calculate_stats (the four-column aggregation) together with the
  member-list construction of Market.__init__.

Python strings are modelled as lists of character codes (ASCII is all
the program manipulates), prices as rationals, DataFrames as lists of
rows, and the external yfinance provider (download and Ticker(...).info)
as explicit function parameters.  Operations that raise in Python
(an .item() call on an empty frame, the division by a zero count in
mkt_stats) are modelled as Option-returning functions, none standing
for the raised exception.
-/

set_option autoImplicit false

/-- A Python string, as its list of character codes. -/
abbrev PyStr := List ℕ

/-- Models str.upper on one ASCII character code: codes 97..122
(lowercase letters) move down by 32, everything else is unchanged. -/
def upperChar (n : ℕ) : ℕ := if 97 ≤ n ∧ n ≤ 122 then n - 32 else n

/-- Models str.upper on a whole string. -/
def pyUpper (s : PyStr) : PyStr := s.map upperChar

/-- Models Python str.split with the literal one-space separator, code 32:
the string is cut at every occurrence of the separator and empty pieces
are kept, exactly as Python does (so a leading space yields a leading
empty piece, and an empty string splits to one empty piece). -/
def pySplitSpace : PyStr → List PyStr
  | [] => [[]]
  | c :: rest =>
      if c = 32 then [] :: pySplitSpace rest
      else
        match pySplitSpace rest with
        | [] => [[c]]
        | t :: ts => (c :: t) :: ts

/-- Models the Python expression s.split(" ")[0] (used for the ticker in
Stock.__init__ and for the date strings). -/
def splitFirst (s : PyStr) : PyStr := (pySplitSpace s).headI

/-- Models symbol.upper().split(" ")[0] from Stock.__init__ line 30. -/
def normalizeTicker (symbol : PyStr) : PyStr := splitFirst (pyUpper symbol)

/-- One OHLC bar as returned by the provider (yfinance download). -/
structure Bar where
  Open : ℚ
  High : ℚ
  Low : ℚ
  Close : ℚ
  deriving DecidableEq

/-- One row of the stored DataFrame: the raw OHLC columns plus the two
derived columns Close-Open and High-Low.  In a freshly downloaded frame
the derived slots hold placeholder values; every read of the history
property overwrites both of them from the raw columns. -/
structure Row where
  Open : ℚ
  High : ℚ
  Low : ℚ
  Close : ℚ
  CloseOpen : ℚ
  HighLow : ℚ
  deriving DecidableEq

/-- Embeds a freshly downloaded bar into a stored row; the derived
column slots start as placeholders (value 0) and are never read before
the history property overwrites them. -/
def barToRow (b : Bar) : Row :=
  { Open := b.Open, High := b.High, Low := b.Low, Close := b.Close
    CloseOpen := 0, HighLow := 0 }

/-- The six feature columns used as dictionary keys by
Stock.calculate_stats: open, close, high, low, close-open, high-low. -/
inductive Feature
  | Open
  | Close
  | High
  | Low
  | CloseOpen
  | HighLow
  deriving DecidableEq

/-- The column of a row selected by a feature key. -/
def colVal : Feature → Row → ℚ
  | .Open => Row.Open
  | .Close => Row.Close
  | .High => Row.High
  | .Low => Row.Low
  | .CloseOpen => Row.CloseOpen
  | .HighLow => Row.HighLow

/-- The arithmetic mean of a list of rationals (pandas Series.mean, and
also the unweighted mean used by Market.mkt_stats). -/
def listMean (xs : List ℚ) : ℚ := xs.sum / xs.length

/-- Sample variance with the n-1 denominator (pandas Series.var with its
default ddof=1).  For a list of length at most one, pandas yields NaN;
here the rational division-by-zero convention yields 0 for length one —
no claim depends on that corner. -/
def sampleVar (xs : List ℚ) : ℚ :=
  (xs.map (fun x => (x - listMean xs) ^ 2)).sum / ((xs.length : ℚ) - 1)

/-- Minimum of a column (pandas Series.min), total with default 0 on the
empty list; it is only ever used on non-empty columns. -/
def colMinD : List ℚ → ℚ
  | [] => 0
  | x :: r => r.foldl min x

/-- Maximum of a column (pandas Series.max), total with default 0 on the
empty list; it is only ever used on non-empty columns. -/
def colMaxD : List ℚ → ℚ
  | [] => 0
  | x :: r => r.foldl max x

/-- The external provider's download function (yfinance download):
ticker, start date, end date to an ordered OHLC series. -/
abbrev Download := PyStr → PyStr → PyStr → List Bar

/-- The external provider's instrument metadata (Ticker(sym).info): the
beta value for the symbol that was handed to Ticker. -/
abbrev InfoBeta := PyStr → ℚ

/-- The state of one Stock object: the underscore attributes plus every
attribute calculate_stats assigns.  stock_data records the symbol that
was passed to Ticker(...) — Ticker(sym).info is where beta is read from.
The std_dev dictionary (square roots of the variances) is irrational in
general and not representable over ℚ; it is determined by the same
history as variance and is carried opaquely at the Market level. -/
structure StockState where
  ticker : PyStr
  stock_data : PyStr
  start_date : PyStr
  end_date : PyStr
  history : List Row
  beta : ℚ
  return_pct : ℚ
  average : Feature → ℚ
  variance : Feature → ℚ
  max : Feature → ℚ
  min : Feature → ℚ

namespace Stock

/-- Models the history property (stocker.py lines 99-103): every read
assigns the Close-Open and High-Low columns from the raw Close, Open,
High, Low columns of the stored frame and returns the result. -/
def history (df : List Row) : List Row :=
  df.map (fun r =>
    { r with CloseOpen := r.Close - r.Open, HighLow := r.High - r.Low })

/-- Models the two .item() reads of Stock.calculate_stats lines 51-53:
the Close of the last row and the Open of the first row, and the return
percentage built from them.  .item() on an empty frame raises in Python;
that failure is the none case. -/
def returnPct (df : List Row) : Option ℚ :=
  match df.getLast?, df.head? with
  | some lb, some fb => some ((lb.Close - fb.Open) / fb.Open)
  | _, _ => none

/-- Models Stock.calculate_stats (lines 46-88): beta is read from the
Ticker metadata, return_pct from the first and last bars, and the
average, variance, max and min dictionaries are computed per feature
column of the (derived-column) history.  Each self.history read also
stores the derived columns back into the frame, so the stored history
ends up with its derived columns set.  none models the ValueError that
.item() raises when the downloaded frame is empty. -/
def calculate_stats (ib : InfoBeta) (st : StockState) : Option StockState :=
  let d := history st.history
  match returnPct d with
  | none => none
  | some rp =>
      some { st with
        history := d
        beta := ib st.stock_data
        return_pct := rp
        average := fun f => listMean (d.map (colVal f))
        variance := fun f => sampleVar (d.map (colVal f))
        max := fun f => colMaxD (d.map (colVal f))
        min := fun f => colMinD (d.map (colVal f)) }

/-- Models Stock.__init__ (lines 20-37): the ticker is
symbol.upper().split(" ")[0]; the dates keep only their first
space-separated piece; assigning stock_data = Ticker(self.ticker)
triggers the stock_data setter, which downloads the frame for
(self.ticker, start_date, end_date); finally calculate_stats runs.
The placeholder zeros stand for attributes Python has not yet assigned;
calculate_stats overwrites every one of them. -/
def init (dl : Download) (ib : InfoBeta) (symbol start end_ : PyStr) :
    Option StockState :=
  let t := normalizeTicker symbol
  let sd := splitFirst start
  let ed := splitFirst end_
  calculate_stats ib
    { ticker := t
      stock_data := t
      start_date := sd
      end_date := ed
      history := (dl t sd ed).map barToRow
      beta := 0
      return_pct := 0
      average := fun _ => 0
      variance := fun _ => 0
      max := fun _ => 0
      min := fun _ => 0 }

/-- Models the ticker setter (lines 113-117): the stored ticker becomes
symbol.upper() — with no split(" ")[0] —, stock_data becomes
Ticker(symbol) with the raw symbol, whose setter re-downloads the frame
for (self.ticker, start_date, end_date) with the dates untouched, and
calculate_stats recomputes everything from the new frame. -/
def set_ticker (dl : Download) (ib : InfoBeta) (st : StockState)
    (symbol : PyStr) : Option StockState :=
  let t := pyUpper symbol
  calculate_stats ib
    { st with
      ticker := t
      stock_data := symbol
      history := (dl t st.start_date st.end_date).map barToRow }

/-- Models Stock.requery_data (lines 119-120): the body is a single
return of download(self.ticker, start.split(" ")[0], end.split(" ")[0]);
no attribute is assigned, so the state component of the result is the
unchanged input state. -/
def requery_data (dl : Download) (st : StockState) (start end_ : PyStr) :
    List Bar × StockState :=
  (dl st.ticker (splitFirst start) (splitFirst end_), st)

end Stock

/-- The view of one member Stock that Market.mkt_stats reads: its
average, variance and std_dev dictionaries and its return_pct.  The
std_dev values are carried opaquely (they are square roots, irrational
in general); mkt_stats only adds and divides them. -/
structure StockStats where
  average : Feature → ℚ
  variance : Feature → ℚ
  std_dev : Feature → ℚ
  return_pct : ℚ

/-- The four-feature dictionaries Market.calculate_stats builds, with
keys open, close, high, low. -/
structure MktDict where
  Open : ℚ
  Close : ℚ
  High : ℚ
  Low : ℚ

/-- The attributes Market.calculate_stats assigns: the average, variance
and std_dev dictionaries and raw_return_pct. -/
structure MarketStatsR where
  average : MktDict
  variance : MktDict
  std_dev : MktDict
  raw_return_pct : ℚ

namespace Market

/-- The accumulator loop of Market.mkt_stats (lines 176-186): starting
from c = avg = vari = stdv = ret = 0, each member stock bumps the count
and adds its average, variance, std_dev at the requested column and its
return_pct. -/
def mktStatsGo (f : Feature) (c : ℕ) (avg vari stdv ret : ℚ) :
    List StockStats → ℕ × ℚ × ℚ × ℚ × ℚ
  | [] => (c, avg, vari, stdv, ret)
  | s :: rest =>
      mktStatsGo f (c + 1) (avg + s.average f) (vari + s.variance f)
        (stdv + s.std_dev f) (ret + s.return_pct) rest

/-- Models Market.mkt_stats (lines 165-187): runs the loop and returns
the list [avg/c, vari/c, stdv/c, ret/c] (as a quadruple).  When the
stock list is empty, c is 0 and Python raises ZeroDivisionError; that
failure is the none case. -/
def mkt_stats (stocks : List StockStats) (f : Feature) :
    Option (ℚ × ℚ × ℚ × ℚ) :=
  let r := mktStatsGo f 0 0 0 0 0 stocks
  if r.1 = 0 then none
  else
    some (r.2.1 / (r.1 : ℚ), r.2.2.1 / (r.1 : ℚ), r.2.2.2.1 / (r.1 : ℚ),
      r.2.2.2.2 / (r.1 : ℚ))

/-- Models Market.calculate_stats (lines 153-161): mkt_stats is called
for the four columns open, close, high, low; the dictionaries collect
element 0 (average), 1 (variance) and 2 (std_dev) of each result, and
raw_return_pct is element 3 of the open call.  A failure of any call
(the empty-basket ZeroDivisionError) fails the whole computation. -/
def calculate_stats (stocks : List StockStats) : Option MarketStatsR :=
  match mkt_stats stocks .Open, mkt_stats stocks .Close,
      mkt_stats stocks .High, mkt_stats stocks .Low with
  | some os, some cs, some hs, some ls =>
      some { average := ⟨os.1, cs.1, hs.1, ls.1⟩
             variance := ⟨os.2.1, cs.2.1, hs.2.1, ls.2.1⟩
             std_dev := ⟨os.2.2.1, cs.2.2.1, hs.2.2.1, ls.2.2.1⟩
             raw_return_pct := os.2.2.2 }
  | _, _, _, _ => none

/-- Models Market.__init__ (lines 133-145) as far as the member list is
concerned: the tickers are uppercased, one member Stock is built per
ticker (mkStock abstracts the Stock construction, yielding the stats
view mkt_stats reads), and calculate_stats runs on the member list.
The risk-free Stock is built separately and never enters
calculate_stats, so it plays no part here. -/
def init (mkStock : PyStr → StockStats) (symbols : List PyStr) :
    Option (List StockStats × MarketStatsR) :=
  let tickers := symbols.map pyUpper
  let stocks := tickers.map mkStock
  (calculate_stats stocks).map (fun ms => (stocks, ms))

end Market

/-! ### Concrete inputs used in witnesses and counterexamples -/

/-- A concrete bar with Open 1, High 4, Low 1, Close 2. -/
def bar0 : Bar := { Open := 1, High := 4, Low := 1, Close := 2 }

/-- The stored-row form of bar0. -/
def row0 : Row := barToRow bar0

/-- A concrete provider whose every query returns the one-bar series. -/
def dl0 : Download := fun _ _ _ => [bar0]

/-- A concrete metadata source: beta 0 for every symbol. -/
def ib0 : InfoBeta := fun _ => 0

/-- A concrete stock state holding a one-row history for the ticker
TSLA (codes 84 83 76 65). -/
def stA : StockState :=
  { ticker := [84, 83, 76, 65]
    stock_data := [84, 83, 76, 65]
    start_date := []
    end_date := []
    history := [row0]
    beta := 0
    return_pct := 0
    average := fun _ => 0
    variance := fun _ => 0
    max := fun _ => 0
    min := fun _ => 0 }

/-- The same concrete state with an empty stored history. -/
def stE : StockState := { stA with history := [] }

/-- A concrete member-stock view for the Market-level witnesses. -/
def ss0 : StockStats :=
  { average := fun _ => 2
    variance := fun _ => 3
    std_dev := fun _ => 5
    return_pct := 7 }

/-! ### Helper lemmas on the string operations -/

theorem upperChar_idem (n : ℕ) : upperChar (upperChar n) = upperChar n := by
  simp only [upperChar]
  split_ifs <;> omega

theorem map_fix {α : Type} (f : α → α) :
    ∀ l : List α, (∀ x ∈ l, f x = x) → l.map f = l
  | [], _ => rfl
  | x :: xs, h => by
    have hx : f x = x := h x (by simp)
    have hxs : xs.map f = xs := map_fix f xs (fun y hy => h y (by simp [hy]))
    simp [hx, hxs]

theorem takeWhile_all {α : Type} (p : α → Bool) :
    ∀ l : List α, (∀ x ∈ l, p x = true) → l.takeWhile p = l
  | [], _ => rfl
  | x :: xs, h => by
    have hx : p x = true := h x (by simp)
    have hxs : xs.takeWhile p = xs :=
      takeWhile_all p xs (fun y hy => h y (by simp [hy]))
    simp [List.takeWhile_cons, hx, hxs]

theorem mem_takeWhile_pred {α : Type} (p : α → Bool) :
    ∀ (l : List α) (x : α), x ∈ l.takeWhile p → p x = true
  | [], x, h => by cases h
  | a :: as, x, h => by
    by_cases ha : p a = true
    · rw [List.takeWhile_cons, if_pos ha] at h
      rcases List.mem_cons.mp h with h1 | h2
      · exact h1 ▸ ha
      · exact mem_takeWhile_pred p as x h2
    · rw [List.takeWhile_cons, if_neg ha] at h
      cases h

theorem mem_takeWhile_mem {α : Type} (p : α → Bool) :
    ∀ (l : List α) (x : α), x ∈ l.takeWhile p → x ∈ l
  | [], x, h => by cases h
  | a :: as, x, h => by
    by_cases ha : p a = true
    · rw [List.takeWhile_cons, if_pos ha] at h
      rcases List.mem_cons.mp h with h1 | h2
      · exact h1 ▸ List.mem_cons_self a as
      · exact List.mem_cons_of_mem a (mem_takeWhile_mem p as x h2)
    · rw [List.takeWhile_cons, if_neg ha] at h
      cases h

theorem pySplitSpace_ne_nil : ∀ l : PyStr, pySplitSpace l ≠ []
  | [] => by simp [pySplitSpace]
  | c :: rest => by
    simp only [pySplitSpace]
    split
    · simp
    · split <;> simp

theorem splitFirst_takeWhile (l : PyStr) :
    splitFirst l = l.takeWhile (fun c => c != 32) := by
  induction l with
  | nil => rfl
  | cons c rest ih =>
    by_cases h : c = 32
    · subst h
      simp [splitFirst, pySplitSpace, List.takeWhile_cons]
    · have hne := pySplitSpace_ne_nil rest
      cases hps : pySplitSpace rest with
      | nil => exact absurd hps hne
      | cons t ts =>
        have ht : t = rest.takeWhile (fun c => c != 32) := by
          have h2 := ih
          rw [splitFirst, hps] at h2
          simpa using h2
        simp [splitFirst, pySplitSpace, h, hps, List.takeWhile_cons, ht]

theorem normalizeTicker_takeWhile (s : PyStr) :
    normalizeTicker s = (pyUpper s).takeWhile (fun c => c != 32) :=
  splitFirst_takeWhile (pyUpper s)

theorem not_mem_32_normalizeTicker (s : PyStr) : 32 ∉ normalizeTicker s := by
  intro hmem
  rw [normalizeTicker_takeWhile] at hmem
  have := mem_takeWhile_pred _ _ _ hmem
  simp at this

theorem mem_normalizeTicker_upper {c : ℕ} {s : PyStr}
    (h : c ∈ normalizeTicker s) : upperChar c = c := by
  rw [normalizeTicker_takeWhile] at h
  have hmem : c ∈ pyUpper s := mem_takeWhile_mem _ _ _ h
  obtain ⟨y, _, hy⟩ := List.mem_map.mp hmem
  rw [← hy, upperChar_idem]

theorem pyUpper_normalizeTicker (s : PyStr) :
    pyUpper (normalizeTicker s) = normalizeTicker s :=
  map_fix upperChar (normalizeTicker s) (fun _ hx => mem_normalizeTicker_upper hx)

theorem normalizeTicker_idem (s : PyStr) :
    normalizeTicker (normalizeTicker s) = normalizeTicker s := by
  rw [normalizeTicker, splitFirst_takeWhile, pyUpper_normalizeTicker]
  refine takeWhile_all _ _ (fun x hx => ?_)
  have h32 : x ≠ 32 := by
    intro hx32
    exact not_mem_32_normalizeTicker s (hx32 ▸ hx)
  simpa using h32

/-! ### Helper lemmas on column statistics -/

theorem foldl_min_le_init : ∀ (r : List ℚ) (x : ℚ), r.foldl min x ≤ x
  | [], x => le_refl x
  | a :: t, x => le_trans (foldl_min_le_init t (min x a)) (min_le_left x a)

theorem foldl_min_le_mem :
    ∀ (r : List ℚ) (x y : ℚ), y ∈ r → r.foldl min x ≤ y
  | [], _, _, h => absurd h (List.not_mem_nil _)
  | a :: t, x, y, h => by
    rcases List.mem_cons.mp h with h1 | h2
    · subst h1
      exact le_trans (foldl_min_le_init t (min x y)) (min_le_right x y)
    · exact foldl_min_le_mem t (min x a) y h2

theorem le_foldl_max_init : ∀ (r : List ℚ) (x : ℚ), x ≤ r.foldl max x
  | [], x => le_refl x
  | a :: t, x => le_trans (le_max_left x a) (le_foldl_max_init t (max x a))

theorem le_foldl_max_mem :
    ∀ (r : List ℚ) (x y : ℚ), y ∈ r → y ≤ r.foldl max x
  | [], _, _, h => absurd h (List.not_mem_nil _)
  | a :: t, x, y, h => by
    rcases List.mem_cons.mp h with h1 | h2
    · subst h1
      exact le_trans (le_max_right x y) (le_foldl_max_init t (max x y))
    · exact le_foldl_max_mem t (max x a) y h2

theorem colMinD_le_mem {xs : List ℚ} (y : ℚ) (hy : y ∈ xs) : colMinD xs ≤ y := by
  cases xs with
  | nil => cases hy
  | cons x r =>
    rcases List.mem_cons.mp hy with h | h
    · subst h
      exact foldl_min_le_init r y
    · exact foldl_min_le_mem r x y h

theorem mem_le_colMaxD {xs : List ℚ} (y : ℚ) (hy : y ∈ xs) : y ≤ colMaxD xs := by
  cases xs with
  | nil => cases hy
  | cons x r =>
    rcases List.mem_cons.mp hy with h | h
    · subst h
      exact le_foldl_max_init r y
    · exact le_foldl_max_mem r x y h

theorem length_mul_le_sum (xs : List ℚ) (m : ℚ) (h : ∀ y ∈ xs, m ≤ y) :
    (xs.length : ℚ) * m ≤ xs.sum := by
  induction xs with
  | nil => simp
  | cons x t ih =>
    have h1 : m ≤ x := h x (by simp)
    have h2 : (t.length : ℚ) * m ≤ t.sum := ih (fun y hy => h y (by simp [hy]))
    have h3 : ((t.length : ℚ) + 1) * m = (t.length : ℚ) * m + m := by ring
    simp only [List.sum_cons, List.length_cons]
    push_cast
    linarith

theorem sum_le_length_mul (xs : List ℚ) (m : ℚ) (h : ∀ y ∈ xs, y ≤ m) :
    xs.sum ≤ (xs.length : ℚ) * m := by
  induction xs with
  | nil => simp
  | cons x t ih =>
    have h1 : x ≤ m := h x (by simp)
    have h2 : t.sum ≤ (t.length : ℚ) * m := ih (fun y hy => h y (by simp [hy]))
    have h3 : ((t.length : ℚ) + 1) * m = (t.length : ℚ) * m + m := by ring
    simp only [List.sum_cons, List.length_cons]
    push_cast
    linarith

theorem colMinD_le_listMean (xs : List ℚ) (h : xs ≠ []) :
    colMinD xs ≤ listMean xs := by
  have hpos : (0 : ℚ) < (xs.length : ℚ) := by
    exact_mod_cast List.length_pos.mpr h
  rw [listMean, le_div_iff₀ hpos]
  have hb := length_mul_le_sum xs (colMinD xs) (fun y hy => colMinD_le_mem y hy)
  linarith

theorem listMean_le_colMaxD (xs : List ℚ) (h : xs ≠ []) :
    listMean xs ≤ colMaxD xs := by
  have hpos : (0 : ℚ) < (xs.length : ℚ) := by
    exact_mod_cast List.length_pos.mpr h
  rw [listMean, div_le_iff₀ hpos]
  have hb := sum_le_length_mul xs (colMaxD xs) (fun y hy => mem_le_colMaxD y hy)
  linarith

/-! ### Helper lemmas on the Stock state operations -/

theorem history_ne_nil {df : List Row} (h : df ≠ []) : Stock.history df ≠ [] := by
  simpa [Stock.history] using h

theorem mapGetLast {α β : Type} (f : α → β) :
    ∀ l : List α, (l.map f).getLast? = l.getLast?.map f
  | [] => rfl
  | [x] => rfl
  | x :: y :: t => by
    rw [List.map_cons, List.map_cons, List.getLast?_cons_cons,
      List.getLast?_cons_cons, ← List.map_cons]
    exact mapGetLast f (y :: t)

theorem returnPct_of_ne_nil (df : List Row) (h : df ≠ []) :
    ∃ fb lb, df.head? = some fb ∧ df.getLast? = some lb ∧
      Stock.returnPct df = some ((lb.Close - fb.Open) / fb.Open) := by
  cases df with
  | nil => exact absurd rfl h
  | cons x xs =>
    have hl : (x :: xs).getLast? = some ((x :: xs).getLast (by simp)) :=
      List.getLast?_eq_getLast _ _
    refine ⟨x, (x :: xs).getLast (by simp), rfl, hl, ?_⟩
    rw [Stock.returnPct, hl]
    rfl

theorem returnPct_history (df : List Row) (h : df ≠ []) :
    ∃ fb lb, df.head? = some fb ∧ df.getLast? = some lb ∧
      Stock.returnPct (Stock.history df) =
        some ((lb.Close - fb.Open) / fb.Open) := by
  cases df with
  | nil => exact absurd rfl h
  | cons x xs =>
    have hl : (x :: xs).getLast? = some ((x :: xs).getLast (by simp)) :=
      List.getLast?_eq_getLast _ _
    refine ⟨x, (x :: xs).getLast (by simp), rfl, hl, ?_⟩
    rw [Stock.returnPct, Stock.history, mapGetLast, hl]
    rfl

theorem calculate_stats_spec (ib : InfoBeta) (st : StockState)
    (h : st.history ≠ []) :
    ∃ st' rp,
      Stock.calculate_stats ib st = some st' ∧
      Stock.returnPct (Stock.history st.history) = some rp ∧
      st'.ticker = st.ticker ∧
      st'.stock_data = st.stock_data ∧
      st'.start_date = st.start_date ∧
      st'.end_date = st.end_date ∧
      st'.history = Stock.history st.history ∧
      st'.beta = ib st.stock_data ∧
      st'.return_pct = rp ∧
      st'.average =
        (fun f => listMean ((Stock.history st.history).map (colVal f))) ∧
      st'.variance =
        (fun f => sampleVar ((Stock.history st.history).map (colVal f))) ∧
      st'.max =
        (fun f => colMaxD ((Stock.history st.history).map (colVal f))) ∧
      st'.min =
        (fun f => colMinD ((Stock.history st.history).map (colVal f))) := by
  obtain ⟨fb, lb, hh, hl, hr⟩ :=
    returnPct_of_ne_nil (Stock.history st.history) (history_ne_nil h)
  have heq : Stock.calculate_stats ib st = some
      { st with
        history := Stock.history st.history
        beta := ib st.stock_data
        return_pct := (lb.Close - fb.Open) / fb.Open
        average := fun f => listMean ((Stock.history st.history).map (colVal f))
        variance := fun f => sampleVar ((Stock.history st.history).map (colVal f))
        max := fun f => colMaxD ((Stock.history st.history).map (colVal f))
        min := fun f => colMinD ((Stock.history st.history).map (colVal f)) } := by
    simp only [Stock.calculate_stats]
    rw [hr]
  exact ⟨_, _, heq, hr, rfl, rfl, rfl, rfl, rfl, rfl, rfl, rfl, rfl, rfl, rfl⟩

/-! ### Helper lemmas on the Market loop -/

theorem mktStatsGo_eq (f : Feature) :
    ∀ (l : List StockStats) (c : ℕ) (avg vari stdv ret : ℚ),
      Market.mktStatsGo f c avg vari stdv ret l =
        (c + l.length,
         avg + (l.map (fun s => s.average f)).sum,
         vari + (l.map (fun s => s.variance f)).sum,
         stdv + (l.map (fun s => s.std_dev f)).sum,
         ret + (l.map (fun s => s.return_pct)).sum)
  | [], c, avg, vari, stdv, ret => by
    simp [Market.mktStatsGo]
  | s :: rest, c, avg, vari, stdv, ret => by
    rw [Market.mktStatsGo, mktStatsGo_eq f rest]
    simp only [List.map_cons, List.sum_cons, List.length_cons, Prod.mk.injEq]
    refine ⟨by omega, by ring, by ring, by ring, by ring⟩

theorem mkt_stats_eq (stocks : List StockStats) (f : Feature)
    (h : stocks ≠ []) :
    Market.mkt_stats stocks f =
      some (listMean (stocks.map (fun s => s.average f)),
            listMean (stocks.map (fun s => s.variance f)),
            listMean (stocks.map (fun s => s.std_dev f)),
            listMean (stocks.map (fun s => s.return_pct))) := by
  have hlen : stocks.length ≠ 0 := fun hc => h (List.length_eq_zero.mp hc)
  simp only [Market.mkt_stats, mktStatsGo_eq]
  simp [hlen, listMean]

/-! ### The claims -/

/-- Claim C3: the derived columns of every read of the history property
equal close - open and high - low per bar, the read is idempotent
(reading the already-derived frame reproduces it exactly, with no
compounding), and the raw open/high/low/close columns are untouched —
so the derivation is computed from the raw columns only. -/
theorem C3_derived_columns (df : List Row) :
    (Stock.history df).map Row.CloseOpen = df.map (fun r => r.Close - r.Open) ∧
    (Stock.history df).map Row.HighLow = df.map (fun r => r.High - r.Low) ∧
    Stock.history (Stock.history df) = Stock.history df ∧
    (Stock.history df).map Row.Open = df.map Row.Open ∧
    (Stock.history df).map Row.High = df.map Row.High ∧
    (Stock.history df).map Row.Low = df.map Row.Low ∧
    (Stock.history df).map Row.Close = df.map Row.Close := by
  simp only [Stock.history, List.map_map]
  exact ⟨rfl, rfl, rfl, rfl, rfl, rfl, rfl⟩

/-- Claim C4: whenever calculate_stats succeeds (the fetched series is
non-empty), the computed StatSet satisfies min ≤ mean ≤ max at every
one of the six feature columns. -/
theorem C4_min_mean_max (ib : InfoBeta) (st : StockState)
    (h : st.history ≠ []) (f : Feature) :
    ∃ st', Stock.calculate_stats ib st = some st' ∧
      st'.min f ≤ st'.average f ∧ st'.average f ≤ st'.max f := by
  obtain ⟨st', rp, heq, _, _, _, _, _, _, _, _, hav, _, hmax, hmin⟩ :=
    calculate_stats_spec ib st h
  have hcol : (Stock.history st.history).map (colVal f) ≠ [] := by
    intro hc
    exact history_ne_nil h (List.map_eq_nil_iff.mp hc)
  refine ⟨st', heq, ?_, ?_⟩
  · rw [hmin, hav]
    exact colMinD_le_listMean _ hcol
  · rw [hav, hmax]
    exact listMean_le_colMaxD _ hcol

/-- Witness for C4 at a concrete one-bar state and the open column. -/
theorem C4_witness :
    ∃ st', Stock.calculate_stats ib0 stA = some st' ∧
      st'.min Feature.Open ≤ st'.average Feature.Open ∧
      st'.average Feature.Open ≤ st'.max Feature.Open :=
  C4_min_mean_max ib0 stA (by decide) Feature.Open

/-- Claim C5: calculate_stats fails (the .item() error, the spec's
InsufficientData) exactly when the fetched series is empty; on a
non-empty series it succeeds and return_pct equals
(close of the last bar - open of the first bar) / open of the first
bar. -/
theorem C5_return_pct (ib : InfoBeta) (st : StockState) :
    (st.history = [] → Stock.calculate_stats ib st = none) ∧
    (st.history ≠ [] → ∃ st' fb lb,
      Stock.calculate_stats ib st = some st' ∧
      st.history.head? = some fb ∧
      st.history.getLast? = some lb ∧
      st'.return_pct = (lb.Close - fb.Open) / fb.Open) := by
  constructor
  · intro h0
    simp [Stock.calculate_stats, h0, Stock.history, Stock.returnPct]
  · intro h
    obtain ⟨st', rp, heq, hrp, _, _, _, _, _, _, hret, _, _, _⟩ :=
      calculate_stats_spec ib st h
    obtain ⟨fb, lb, hh, hl, hr⟩ := returnPct_history st.history h
    refine ⟨st', fb, lb, heq, hh, hl, ?_⟩
    rw [hret]
    rw [hrp] at hr
    exact Option.some.inj hr

/-- Witness for C5: the empty-series branch at a concrete empty state
and the formula branch at a concrete one-bar state. -/
theorem C5_witness :
    Stock.calculate_stats ib0 stE = none ∧
    ∃ st' fb lb,
      Stock.calculate_stats ib0 stA = some st' ∧
      stA.history.head? = some fb ∧
      stA.history.getLast? = some lb ∧
      st'.return_pct = (lb.Close - fb.Open) / fb.Open :=
  ⟨(C5_return_pct ib0 stE).1 rfl, (C5_return_pct ib0 stA).2 (by decide)⟩

/-- Claim C9: requery_data is a pure query — it returns the downloaded
series for the ad-hoc range and every field of the instrument state
(ticker, dates, stored series, statistics, beta, return_pct) is
unchanged. -/
theorem C9_requery_pure (dl : Download) (st : StockState)
    (start end_ : PyStr) :
    (Stock.requery_data dl st start end_).1 =
      dl st.ticker (splitFirst start) (splitFirst end_) ∧
    (Stock.requery_data dl st start end_).2 = st ∧
    (Stock.requery_data dl st start end_).2.ticker = st.ticker ∧
    (Stock.requery_data dl st start end_).2.stock_data = st.stock_data ∧
    (Stock.requery_data dl st start end_).2.start_date = st.start_date ∧
    (Stock.requery_data dl st start end_).2.end_date = st.end_date ∧
    (Stock.requery_data dl st start end_).2.history = st.history ∧
    (Stock.requery_data dl st start end_).2.beta = st.beta ∧
    (Stock.requery_data dl st start end_).2.return_pct = st.return_pct ∧
    (Stock.requery_data dl st start end_).2.average = st.average ∧
    (Stock.requery_data dl st start end_).2.variance = st.variance ∧
    (Stock.requery_data dl st start end_).2.max = st.max ∧
    (Stock.requery_data dl st start end_).2.min = st.min :=
  ⟨rfl, rfl, rfl, rfl, rfl, rfl, rfl, rfl, rfl, rfl, rfl, rfl, rfl⟩

/-- Claim C1: for a basket with at least one member, every basket-level
statistic (mean, variance, standard deviation) at each of the four
features open/close/high/low is the unweighted arithmetic mean, over
the member stocks (the risk-free stock never enters calculate_stats),
of the members' own per-feature statistic, and the basket's return
average is the unweighted mean of the members' return_pct values. -/
theorem C1_basket_unweighted_mean (stocks : List StockStats)
    (h : stocks ≠ []) :
    ∃ ms, Market.calculate_stats stocks = some ms ∧
      ms.average.Open = listMean (stocks.map (fun s => s.average Feature.Open)) ∧
      ms.average.Close = listMean (stocks.map (fun s => s.average Feature.Close)) ∧
      ms.average.High = listMean (stocks.map (fun s => s.average Feature.High)) ∧
      ms.average.Low = listMean (stocks.map (fun s => s.average Feature.Low)) ∧
      ms.variance.Open = listMean (stocks.map (fun s => s.variance Feature.Open)) ∧
      ms.variance.Close = listMean (stocks.map (fun s => s.variance Feature.Close)) ∧
      ms.variance.High = listMean (stocks.map (fun s => s.variance Feature.High)) ∧
      ms.variance.Low = listMean (stocks.map (fun s => s.variance Feature.Low)) ∧
      ms.std_dev.Open = listMean (stocks.map (fun s => s.std_dev Feature.Open)) ∧
      ms.std_dev.Close = listMean (stocks.map (fun s => s.std_dev Feature.Close)) ∧
      ms.std_dev.High = listMean (stocks.map (fun s => s.std_dev Feature.High)) ∧
      ms.std_dev.Low = listMean (stocks.map (fun s => s.std_dev Feature.Low)) ∧
      ms.raw_return_pct = listMean (stocks.map (fun s => s.return_pct)) := by
  have ho := mkt_stats_eq stocks Feature.Open h
  have hc := mkt_stats_eq stocks Feature.Close h
  have hhi := mkt_stats_eq stocks Feature.High h
  have hlo := mkt_stats_eq stocks Feature.Low h
  have heq : Market.calculate_stats stocks = some
      { average :=
          ⟨listMean (stocks.map (fun s => s.average Feature.Open)),
           listMean (stocks.map (fun s => s.average Feature.Close)),
           listMean (stocks.map (fun s => s.average Feature.High)),
           listMean (stocks.map (fun s => s.average Feature.Low))⟩
        variance :=
          ⟨listMean (stocks.map (fun s => s.variance Feature.Open)),
           listMean (stocks.map (fun s => s.variance Feature.Close)),
           listMean (stocks.map (fun s => s.variance Feature.High)),
           listMean (stocks.map (fun s => s.variance Feature.Low))⟩
        std_dev :=
          ⟨listMean (stocks.map (fun s => s.std_dev Feature.Open)),
           listMean (stocks.map (fun s => s.std_dev Feature.Close)),
           listMean (stocks.map (fun s => s.std_dev Feature.High)),
           listMean (stocks.map (fun s => s.std_dev Feature.Low))⟩
        raw_return_pct := listMean (stocks.map (fun s => s.return_pct)) } := by
    simp only [Market.calculate_stats]
    rw [ho, hc, hhi, hlo]
  exact ⟨_, heq, rfl, rfl, rfl, rfl, rfl, rfl, rfl, rfl, rfl, rfl, rfl, rfl, rfl⟩

/-- Witness for C1 at a concrete one-member basket. -/
theorem C1_witness :
    ∃ ms, Market.calculate_stats [ss0] = some ms ∧
      ms.average.Open = listMean ([ss0].map (fun s => s.average Feature.Open)) ∧
      ms.average.Close = listMean ([ss0].map (fun s => s.average Feature.Close)) ∧
      ms.average.High = listMean ([ss0].map (fun s => s.average Feature.High)) ∧
      ms.average.Low = listMean ([ss0].map (fun s => s.average Feature.Low)) ∧
      ms.variance.Open = listMean ([ss0].map (fun s => s.variance Feature.Open)) ∧
      ms.variance.Close = listMean ([ss0].map (fun s => s.variance Feature.Close)) ∧
      ms.variance.High = listMean ([ss0].map (fun s => s.variance Feature.High)) ∧
      ms.variance.Low = listMean ([ss0].map (fun s => s.variance Feature.Low)) ∧
      ms.std_dev.Open = listMean ([ss0].map (fun s => s.std_dev Feature.Open)) ∧
      ms.std_dev.Close = listMean ([ss0].map (fun s => s.std_dev Feature.Close)) ∧
      ms.std_dev.High = listMean ([ss0].map (fun s => s.std_dev Feature.High)) ∧
      ms.std_dev.Low = listMean ([ss0].map (fun s => s.std_dev Feature.Low)) ∧
      ms.raw_return_pct = listMean ([ss0].map (fun s => s.return_pct)) :=
  C1_basket_unweighted_mean [ss0] (List.cons_ne_nil _ _)

/-- Claim C6: on the empty member list every mkt_stats call fails (the
zero-count division, the spec's EmptyBasket failure), hence
calculate_stats fails for all features and aggregates at once, and so
does the construction of a Market from an empty ticker list: the
failure policy is consistent. -/
theorem C6_empty_basket :
    (∀ f : Feature, Market.mkt_stats [] f = none) ∧
    Market.calculate_stats [] = none ∧
    ∀ mk : PyStr → StockStats, Market.init mk [] = none :=
  ⟨fun _ => rfl, rfl, fun _ => rfl⟩

/-- Claim C10: the fourth element of mkt_stats does not depend on the
requested column — for any two features it is the same value, the
unweighted mean of the members' return_pct. -/
theorem C10_return_mean_indep (stocks : List StockStats)
    (c1 c2 : Feature) (h : stocks ≠ []) :
    ∃ r1 r2, Market.mkt_stats stocks c1 = some r1 ∧
      Market.mkt_stats stocks c2 = some r2 ∧
      r1.2.2.2 = r2.2.2.2 ∧
      r1.2.2.2 = listMean (stocks.map (fun s => s.return_pct)) :=
  ⟨_, _, mkt_stats_eq stocks c1 h, mkt_stats_eq stocks c2 h, rfl, rfl⟩

/-- Witness for C10 at a concrete one-member basket with the open and
close columns. -/
theorem C10_witness :
    ∃ r1 r2, Market.mkt_stats [ss0] Feature.Open = some r1 ∧
      Market.mkt_stats [ss0] Feature.Close = some r2 ∧
      r1.2.2.2 = r2.2.2.2 ∧
      r1.2.2.2 = listMean ([ss0].map (fun s => s.return_pct)) :=
  C10_return_mean_indep [ss0] Feature.Open Feature.Close (List.cons_ne_nil _ _)

/-- Counterexample to claim C2 as stated: constructing a Stock for the
symbol " msft corp" (leading space) stores the empty ticker, because
Python split(" ") puts an empty piece before a leading separator — not
"MSFT" (codes 77 83 70 84) as the claim's example demands. -/
theorem C2_counterexample :
    Option.map StockState.ticker
        (Stock.init dl0 ib0 [32, 109, 115, 102, 116, 32, 99, 111, 114, 112]
          [] []) = some [] ∧
    ([] : PyStr) ≠ [77, 83, 70, 84] :=
  ⟨rfl, by decide⟩

/-- Claim C2 (amended): the stored ticker is the first piece of the
uppercased symbol split on the space character — the maximal leading
run free of spaces (so an input with leading spaces yields the empty
ticker).  It never contains a space and is fixed under uppercasing. -/
theorem C2_amended_ticker (dl : Download) (ib : InfoBeta)
    (symbol start end_ : PyStr)
    (h : dl (normalizeTicker symbol) (splitFirst start) (splitFirst end_) ≠ []) :
    ∃ st, Stock.init dl ib symbol start end_ = some st ∧
      st.ticker = (pyUpper symbol).takeWhile (fun c => c != 32) ∧
      32 ∉ st.ticker ∧
      st.ticker.map upperChar = st.ticker ∧
      st.ticker = normalizeTicker symbol := by
  have h0 : ((dl (normalizeTicker symbol) (splitFirst start)
      (splitFirst end_)).map barToRow : List Row) ≠ [] := by
    intro hc
    exact h (List.map_eq_nil_iff.mp hc)
  obtain ⟨st', rp, heq, hrp, ht, hsd, hstart, hend, hh, hb, hret, hav, hvar,
      hmax, hmin⟩ :=
    calculate_stats_spec ib
      { ticker := normalizeTicker symbol
        stock_data := normalizeTicker symbol
        start_date := splitFirst start
        end_date := splitFirst end_
        history := (dl (normalizeTicker symbol) (splitFirst start)
          (splitFirst end_)).map barToRow
        beta := 0
        return_pct := 0
        average := fun _ => 0
        variance := fun _ => 0
        max := fun _ => 0
        min := fun _ => 0 } h0
  have ht' : st'.ticker = normalizeTicker symbol := ht
  refine ⟨st', heq, ?_, ?_, ?_, ht'⟩
  · rw [ht', normalizeTicker_takeWhile]
  · rw [ht']
    exact not_mem_32_normalizeTicker symbol
  · rw [ht']
    exact pyUpper_normalizeTicker symbol

/-- Witness for the amended C2 at the concrete symbol "tsla". -/
theorem C2_witness :
    ∃ st, Stock.init dl0 ib0 [116, 115, 108, 97] [] [] = some st ∧
      st.ticker = (pyUpper [116, 115, 108, 97]).takeWhile (fun c => c != 32) ∧
      32 ∉ st.ticker ∧
      st.ticker.map upperChar = st.ticker ∧
      st.ticker = normalizeTicker [116, 115, 108, 97] :=
  C2_amended_ticker dl0 ib0 [116, 115, 108, 97] [] [] (by decide)

/-- Counterexample to claim C7 as stated: set_ticker with the new symbol
"msft corp" stores "MSFT CORP" — uppercased but NOT trimmed to the first
whitespace-delimited token (the setter has no split(" ")[0]) — so the
stored ticker keeps its space and differs from the claimed
normalization. -/
theorem C7_counterexample :
    Option.map StockState.ticker
        (Stock.set_ticker dl0 ib0 stA
          [109, 115, 102, 116, 32, 99, 111, 114, 112]) =
      some [77, 83, 70, 84, 32, 67, 79, 82, 80] ∧
    32 ∈ ([77, 83, 70, 84, 32, 67, 79, 82, 80] : PyStr) ∧
    ([77, 83, 70, 84, 32, 67, 79, 82, 80] : PyStr) ≠
      normalizeTicker [109, 115, 102, 116, 32, 99, 111, 114, 112] :=
  ⟨rfl, by decide, by decide⟩

/-- Claim C7 (amended): set_ticker uppercases the new symbol but does
not trim it to its first space-delimited token; metadata is refetched
with the raw symbol and the series with the uppercased one over the
existing, unchanged start and end dates; the derived columns, the
StatSet and return_pct are all recomputed from the newly fetched
series. -/
theorem C7_amended_set_ticker (dl : Download) (ib : InfoBeta)
    (st : StockState) (symbol : PyStr)
    (h : dl (pyUpper symbol) st.start_date st.end_date ≠ []) :
    ∃ st', Stock.set_ticker dl ib st symbol = some st' ∧
      st'.ticker = pyUpper symbol ∧
      st'.stock_data = symbol ∧
      st'.beta = ib symbol ∧
      st'.start_date = st.start_date ∧
      st'.end_date = st.end_date ∧
      st'.history =
        Stock.history
          ((dl (pyUpper symbol) st.start_date st.end_date).map barToRow) ∧
      Stock.returnPct st'.history = some st'.return_pct ∧
      st'.average = (fun f => listMean (st'.history.map (colVal f))) ∧
      st'.variance = (fun f => sampleVar (st'.history.map (colVal f))) ∧
      st'.max = (fun f => colMaxD (st'.history.map (colVal f))) ∧
      st'.min = (fun f => colMinD (st'.history.map (colVal f))) := by
  have h0 : ((dl (pyUpper symbol) st.start_date st.end_date).map barToRow :
      List Row) ≠ [] := by
    intro hc
    exact h (List.map_eq_nil_iff.mp hc)
  obtain ⟨st', rp, heq, hrp, ht, hsd, hstart, hend, hh, hb, hret, hav, hvar,
      hmax, hmin⟩ :=
    calculate_stats_spec ib
      { st with
        ticker := pyUpper symbol
        stock_data := symbol
        history := (dl (pyUpper symbol) st.start_date st.end_date).map
          barToRow } h0
  have hh' : st'.history =
      Stock.history
        ((dl (pyUpper symbol) st.start_date st.end_date).map barToRow) := hh
  refine ⟨st', heq, ht, hsd, hb, hstart, hend, hh', ?_, ?_, ?_, ?_, ?_⟩
  · rw [hh', hret]
    exact hrp
  · rw [hh']
    exact hav
  · rw [hh']
    exact hvar
  · rw [hh']
    exact hmax
  · rw [hh']
    exact hmin

/-- Witness for the amended C7 at a concrete state and the concrete new
symbol "msft corp". -/
theorem C7_witness :
    ∃ st', Stock.set_ticker dl0 ib0 stA
        [109, 115, 102, 116, 32, 99, 111, 114, 112] = some st' ∧
      st'.ticker = pyUpper [109, 115, 102, 116, 32, 99, 111, 114, 112] ∧
      st'.stock_data = [109, 115, 102, 116, 32, 99, 111, 114, 112] ∧
      st'.beta = ib0 [109, 115, 102, 116, 32, 99, 111, 114, 112] ∧
      st'.start_date = stA.start_date ∧
      st'.end_date = stA.end_date ∧
      st'.history =
        Stock.history
          ((dl0 (pyUpper [109, 115, 102, 116, 32, 99, 111, 114, 112])
            stA.start_date stA.end_date).map barToRow) ∧
      Stock.returnPct st'.history = some st'.return_pct ∧
      st'.average = (fun f => listMean (st'.history.map (colVal f))) ∧
      st'.variance = (fun f => sampleVar (st'.history.map (colVal f))) ∧
      st'.max = (fun f => colMaxD (st'.history.map (colVal f))) ∧
      st'.min = (fun f => colMinD (st'.history.map (colVal f))) :=
  C7_amended_set_ticker dl0 ib0 stA
    [109, 115, 102, 116, 32, 99, 111, 114, 112] (by decide)

/-- Claim C8: round-trip — constructing a Stock, then calling set_ticker
with its own stored ticker (the provider being a fixed function, so the
same query returns the same data), leaves a stored series equal
bar-for-bar to that of a freshly constructed Stock for that ticker and
the same date range. -/
theorem C8_round_trip (dl : Download) (ib : InfoBeta)
    (symbol start end_ : PyStr)
    (h : dl (normalizeTicker symbol) (splitFirst start) (splitFirst end_) ≠ []) :
    ∃ st st2 fresh,
      Stock.init dl ib symbol start end_ = some st ∧
      Stock.set_ticker dl ib st st.ticker = some st2 ∧
      Stock.init dl ib st.ticker start end_ = some fresh ∧
      st2.history = fresh.history := by
  have h0 : ((dl (normalizeTicker symbol) (splitFirst start)
      (splitFirst end_)).map barToRow : List Row) ≠ [] := by
    intro hc
    exact h (List.map_eq_nil_iff.mp hc)
  obtain ⟨st, rp0, heq0, _, ht0, _, hstart0, hend0, _, _, _, _, _, _, _⟩ :=
    calculate_stats_spec ib
      { ticker := normalizeTicker symbol
        stock_data := normalizeTicker symbol
        start_date := splitFirst start
        end_date := splitFirst end_
        history := (dl (normalizeTicker symbol) (splitFirst start)
          (splitFirst end_)).map barToRow
        beta := 0
        return_pct := 0
        average := fun _ => 0
        variance := fun _ => 0
        max := fun _ => 0
        min := fun _ => 0 } h0
  have ht : st.ticker = normalizeTicker symbol := ht0
  have hstart : st.start_date = splitFirst start := hstart0
  have hend : st.end_date = splitFirst end_ := hend0
  have hq1 : dl (pyUpper st.ticker) st.start_date st.end_date =
      dl (normalizeTicker symbol) (splitFirst start) (splitFirst end_) := by
    rw [ht, hstart, hend, pyUpper_normalizeTicker]
  have h1 : ((dl (pyUpper st.ticker) st.start_date st.end_date).map barToRow :
      List Row) ≠ [] := by
    rw [hq1]
    exact h0
  obtain ⟨st2, rp1, heq1, _, _, _, _, _, hh2, _, _, _, _, _, _⟩ :=
    calculate_stats_spec ib
      { st with
        ticker := pyUpper st.ticker
        stock_data := st.ticker
        history := (dl (pyUpper st.ticker) st.start_date st.end_date).map
          barToRow } h1
  have hh2' : st2.history =
      Stock.history
        ((dl (pyUpper st.ticker) st.start_date st.end_date).map barToRow) := hh2
  rw [hq1] at hh2'
  have hq2 : dl (normalizeTicker st.ticker) (splitFirst start)
      (splitFirst end_) =
      dl (normalizeTicker symbol) (splitFirst start) (splitFirst end_) := by
    rw [ht, normalizeTicker_idem]
  have h2 : ((dl (normalizeTicker st.ticker) (splitFirst start)
      (splitFirst end_)).map barToRow : List Row) ≠ [] := by
    rw [hq2]
    exact h0
  obtain ⟨fresh, rp2, heq2, _, _, _, _, _, hh3, _, _, _, _, _, _⟩ :=
    calculate_stats_spec ib
      { ticker := normalizeTicker st.ticker
        stock_data := normalizeTicker st.ticker
        start_date := splitFirst start
        end_date := splitFirst end_
        history := (dl (normalizeTicker st.ticker) (splitFirst start)
          (splitFirst end_)).map barToRow
        beta := 0
        return_pct := 0
        average := fun _ => 0
        variance := fun _ => 0
        max := fun _ => 0
        min := fun _ => 0 } h2
  have hh3' : fresh.history =
      Stock.history
        ((dl (normalizeTicker st.ticker) (splitFirst start)
          (splitFirst end_)).map barToRow) := hh3
  rw [hq2] at hh3'
  exact ⟨st, st2, fresh, heq0, heq1, heq2, by rw [hh2', hh3']⟩

/-- Witness for C8 at the concrete symbol "tsla" with the constant
one-bar provider. -/
theorem C8_witness :
    ∃ st st2 fresh,
      Stock.init dl0 ib0 [116, 115, 108, 97] [] [] = some st ∧
      Stock.set_ticker dl0 ib0 st st.ticker = some st2 ∧
      Stock.init dl0 ib0 st.ticker [] [] = some fresh ∧
      st2.history = fresh.history :=
  C8_round_trip dl0 ib0 [116, 115, 108, 97] [] [] (by decide)
